import Mathlib

/-!
Verification of the `ula` logic-analyzer firmware core: the SUMP command
parser (`src/analyzer.rs`), the trigger-to-PIO compiler (`src/trigger.rs`)
and the acquisition engine (`src/sampler.rs`), shallowly embedded in Lean.
Bytes and machine words are modelled as `Nat` with explicit `% 2^w`
reductions where the Rust code truncates.
-/

/-- Device constant from `main.rs`: number of probes. -/
def PROBES : Nat := 16

/-- Device constant from `main.rs`: sample memory size in bytes. -/
def SAMPLE_MEMORY : Nat := 200000

/-- Device constant from `main.rs`: sample rate in Hz. -/
def SAMPLE_RATE : Nat := 100000000

/-! ## Command protocol (`src/analyzer.rs`) -/

/-- The `SumpCommand` enum from `analyzer.rs`. Operand widths follow the
Rust types: `SetDivisor(u16)`, `SetReadCount(usize)`, `SetFlags(u8)`,
trigger commands carry `(u8, u32)`. -/
inductive Cmd
  | reset
  | arm
  | getId
  | getMeta
  | setDivisor (v : Nat)
  | setReadCount (v : Nat)
  | setFlags (v : Nat)
  | setTriggerMask (stage mask : Nat)
  | setTriggerValues (stage pattern : Nat)
  | setTriggerDelay (stage delay : Nat)
deriving DecidableEq, Repr

/-- `u16::from_le_bytes([a, b])`. -/
def le16 (a b : Nat) : Nat := a + 256 * b

/-- `u32::from_le_bytes([a, b, c, d])`. -/
def le32 (a b c d : Nat) : Nat := a + 256 * b + 65536 * c + 16777216 * d

/-- The long-form arm of `parse_command`'s decode `match` (the `cmd if
self.needle > 4` case), factored out: `b0` is the opcode, `b1..b4` the
operand bytes, `tail` the bytes buffered past the 5-byte window. The
unknown-opcode arm drains a single byte. -/
def decodeLong (b0 b1 b2 b3 b4 : Nat) (tail : List Nat) : Option Cmd × List Nat :=
  if b0 = 0x80 then
    (some (.setDivisor (le32 b1 b2 b3 b4 % 65536)), tail)
  else if b0 = 0x81 then
    (some (.setReadCount (le16 b1 b2)), tail)
  else if b0 = 0x82 then
    (some (.setFlags b1), tail)
  else if b0 = 0xc0 ∨ b0 = 0xc4 ∨ b0 = 0xc8 ∨ b0 = 0xcc then
    (some (.setTriggerMask ((b0 - 0xc0) / 4) (le32 b1 b2 b3 b4)), tail)
  else if b0 = 0xc1 ∨ b0 = 0xc5 ∨ b0 = 0xc9 ∨ b0 = 0xcd then
    (some (.setTriggerValues ((b0 - 0xc1) / 4) (le32 b1 b2 b3 b4)), tail)
  else if b0 = 0xc2 ∨ b0 = 0xc6 ∨ b0 = 0xca ∨ b0 = 0xce then
    (some (.setTriggerDelay ((b0 - 0xc2) / 4) (le16 b1 b2)), tail)
  else
    (none, b1 :: b2 :: b3 :: b4 :: tail)

/-- One decode attempt of `LogicAnalyzer::parse_command` on the buffered
bytes `scratch[0..needle]` (modelled as a list). `none` means no byte was
consumed (empty buffer, or a long-form/unknown first byte with fewer than
5 bytes buffered, matching the `needle > 4` guard). `some (c, rest)`
means the consumed prefix was removed by `drain_rx`, `c` being the decoded
command if any. -/
def decode1 : List Nat → Option (Option Cmd × List Nat)
  | [] => none
  | b0 :: rest =>
    if b0 = 0x00 then some (some .reset, rest)
    else if b0 = 0x01 then some (some .arm, rest)
    else if b0 = 0x02 then some (some .getId, rest)
    else if b0 = 0x04 then some (some .getMeta, rest)
    else
      match rest with
      | b1 :: b2 :: b3 :: b4 :: tail => some (decodeLong b0 b1 b2 b3 b4 tail)
      | _ => none

/-- One `parse_command` call: append the newly read bytes (if any were
read) to the buffer and attempt a single decode. With no new bytes the
`Ok(n) if n > 0` guard fails and nothing happens. -/
def pollParse (buf chunk : List Nat) : Option Cmd × List Nat :=
  if chunk.isEmpty then (none, buf)
  else
    match decode1 (buf ++ chunk) with
    | some (c, rest) => (c, rest)
    | none => (none, buf ++ chunk)

/-- Feed a sequence of per-poll chunks through `parse_command`, one decode
attempt per poll (exactly as `poll_serial` behaves), collecting the
decoded commands in order. -/
def runPolls : List Nat → List (List Nat) → List Cmd
  | _, [] => []
  | buf, c :: cs =>
    ((pollParse buf c).1.toList) ++ runPolls (pollParse buf c).2 cs

/-! ## Trigger compiler (`src/trigger.rs`) -/

/-- PIO jump conditions used by the compiler. -/
inductive JmpCond
  | xIsZero
  | xDecNonZero
  | xNotEqualY
deriving DecidableEq, Repr

/-- The PIO instructions emitted by `Trigger::compile` (and the capture
instruction of the wrap body). `jmp` targets are program addresses. -/
inductive PioInstr
  | movOsrPinsRev
  | outNull (bits : Nat)
  | outX (bits : Nat)
  | jmp (cond : JmpCond) (target : Nat)
  | setY (value : Nat)
  | inPins (bits : Nat)
deriving DecidableEq, Repr

/-- `TriggerStage` struct: mask, pattern and delay, all `u32`. -/
structure TriggerStage where
  mask : Nat
  pattern : Nat
  delay : Nat
deriving DecidableEq, Repr

/-- `Trigger` struct: the four stages (modelled as a list; the firmware
array always has length 4). -/
structure Trigger where
  stages : List TriggerStage
deriving DecidableEq, Repr

/-- `u32::trailing_zeros` helper: count trailing zero bits with explicit
fuel (32 suffices for any non-zero `u32`). -/
def tzAux : Nat → Nat → Nat
  | 0, _ => 0
  | fuel + 1, n => if n % 2 = 1 then 0 else 1 + tzAux fuel (n / 2)

/-- `u32::trailing_zeros`: 32 for zero, else the trailing-zero count. -/
def trailingZeros32 (n : Nat) : Nat := if n = 0 then 32 else tzAux 32 n

/-- `u32::trailing_ones` helper with explicit fuel. -/
def toAux : Nat → Nat → Nat
  | 0, _ => 0
  | fuel + 1, n => if n % 2 = 1 then 1 + toAux fuel (n / 2) else 0

/-- `u32::trailing_ones`. -/
def trailingOnes32 (n : Nat) : Nat := toAux 32 n

/-- The mask-scanning `loop` inside `Trigger::compile`, for one enabled
stage whose retry label sits at address `lbl`. Each iteration strips a
run of zeros (emitting `out NULL z`) and then handles a run of ones
(single-bit conditional loop, or a `set Y / out X / jmp X!=Y` triple of
at most 5 bits). The fuel bounds the iteration count; 64 is ample since
every productive iteration shifts at least one bit out of a 32-bit mask. -/
def scanLoop : Nat → Nat → Nat → Nat → List PioInstr
  | 0, _, _, _ => []
  | fuel + 1, lbl, mask, pattern =>
    let z := trailingZeros32 mask
    if z = 32 then []
    else
      let pre : List PioInstr := if z = 0 then [] else [.outNull z]
      let mask1 := mask >>> z
      let pattern1 := pattern >>> z
      match trailingOnes32 mask1 with
      | 0 => pre ++ scanLoop fuel lbl mask1 pattern1
      | 1 =>
        let cond := if pattern1 &&& 1 = 1 then JmpCond.xIsZero else JmpCond.xDecNonZero
        pre ++ [.outX 1, .jmp cond lbl] ++ scanLoop fuel lbl (mask1 >>> 1) (pattern1 >>> 1)
      | ones =>
        let bits := min ones 5
        let val := pattern1 &&& ((1 <<< bits) - 1)
        pre ++ [.setY val, .outX bits, .jmp JmpCond.xNotEqualY lbl] ++
          scanLoop fuel lbl (mask1 >>> bits) (pattern1 >>> bits)

/-- The per-stage emission of `Trigger::compile`: stages with `mask != 0`
each bind their retry label at the current address, emit the bit-reversed
pin snapshot `mov OSR, ::PINS`, then the mask scan; disabled stages emit
nothing. `addr` is the address of the next emitted instruction. -/
def compileStages : Nat → List TriggerStage → List PioInstr
  | _, [] => []
  | addr, s :: rest =>
    if s.mask ≠ 0 then
      let body := PioInstr.movOsrPinsRev :: scanLoop 64 addr s.mask s.pattern
      body ++ compileStages (addr + body.length) rest
    else compileStages addr rest

/-- A compiled PIO program: instruction list, wrap target/source
addresses (from `assemble_with_wrap`), and origin (`set_origin(Some(0))`). -/
structure TriggerProgram where
  instrs : List PioInstr
  wrapTarget : Nat
  wrapSource : Nat
  origin : Nat
deriving DecidableEq, Repr

/-- `Trigger::compile`: all enabled stages, then the wrap body — a single
`in PINS, PROBES` capture instruction with the wrap looping back to it. -/
def Trigger.compile (t : Trigger) : TriggerProgram :=
  let body := compileStages 0 t.stages
  { instrs := body ++ [.inPins PROBES]
    wrapTarget := body.length
    wrapSource := body.length + 1
    origin := 0 }

/-- `Trigger::set_mask` (callers guarantee `stage < 4`). -/
def Trigger.setMask (t : Trigger) (stage mask : Nat) : Trigger :=
  match t.stages[stage]? with
  | some s => { stages := t.stages.set stage { s with mask := mask } }
  | none => t

/-- `Trigger::set_pattern`. -/
def Trigger.setPattern (t : Trigger) (stage pattern : Nat) : Trigger :=
  match t.stages[stage]? with
  | some s => { stages := t.stages.set stage { s with pattern := pattern } }
  | none => t

/-- `Trigger::set_delay`. -/
def Trigger.setDelay (t : Trigger) (stage delay : Nat) : Trigger :=
  match t.stages[stage]? with
  | some s => { stages := t.stages.set stage { s with delay := delay } }
  | none => t

/-- `Trigger::default()`: four all-zero stages. -/
def Trigger.default : Trigger := { stages := List.replicate 4 ⟨0, 0, 0⟩ }

/-! ## Acquisition engine (`src/sampler.rs`) -/

/-- Byte `j` of `w.to_le_bytes()` for a `u32` word. -/
def byteOf (w j : Nat) : Nat := (w >>> (8 * j)) &&& 255

/-- The acquisition engine. `armed` models the `Sink::InProgress` versus
`Sink::StandBy` states; `mem` is the capture buffer of
`SAMPLE_MEMORY / 4` 32-bit words; `clockDiv` is the 16-bit integer part
last handed to `clock_divisor_fixed_point`; `installed` is the PIO
program currently installed. -/
structure Sampler where
  divisor : Nat
  samples : Nat
  chGroups : Bool × Bool
  armed : Bool
  clockDiv : Nat
  installed : TriggerProgram
  mem : List Nat
deriving Repr

/-- `Sampler::set_flags`: group booleans are the negation of flag bits 2
and 3. -/
def Sampler.setFlags (s : Sampler) (flags : Nat) : Sampler :=
  { s with chGroups := ((flags >>> 2) &&& 1 == 0, (flags >>> 3) &&& 1 == 0) }

/-- `Sampler::set_divisor`. -/
def Sampler.setDivisor (s : Sampler) (divisor : Nat) : Sampler :=
  { s with divisor := divisor }

/-- `Sampler::set_sample_memory`. -/
def Sampler.setSampleMemory (s : Sampler) (samples : Nat) : Sampler :=
  { s with samples := samples }

/-- `Sampler::start`: abort any in-flight transfer, compile and install
the trigger program, configure the clock divider integer part to
`self.divisor + 1` (a wrapping `u16` addition in the release build), and
arm a fresh DMA transfer into the reused buffer. -/
def Sampler.start (s : Sampler) (t : Trigger) : Sampler :=
  { s with
    armed := true
    installed := t.compile
    clockDiv := (s.divisor + 1) % 65536 }

/-- `chunks(2)` over the capture words: consecutive non-overlapping
pairs. The firmware buffer has even length, so no partial chunk arises. -/
def toPairs : List Nat → List (Nat × Nat)
  | w0 :: w1 :: rest => (w0, w1) :: toPairs rest
  | _ => []

/-- The bytes `Sampler::drain` writes for one two-word chunk: `s02` is
`chunk[1].to_le_bytes()`, `s13` is `chunk[0].to_le_bytes()`; which lanes
are sent depends on the enabled channel groups. -/
def emitChunk (g : Bool × Bool) (c : Nat × Nat) : List Nat :=
  match g with
  | (true, false) => [byteOf c.2 0, byteOf c.2 2, byteOf c.1 0, byteOf c.1 2]
  | (false, true) => [byteOf c.2 1, byteOf c.2 3, byteOf c.1 1, byteOf c.1 3]
  | (true, true) =>
    [byteOf c.2 0, byteOf c.2 1, byteOf c.2 2, byteOf c.2 3,
     byteOf c.1 0, byteOf c.1 1, byteOf c.1 2, byteOf c.1 3]
  | (false, false) => []

/-- `Sampler::drain`: a benign no-op in `StandBy`; when armed, stop the
transfer and emit the first `samples + 1` two-word chunks of the buffer
in reverse order, then return the resources to `StandBy`. -/
def Sampler.drain (s : Sampler) : Sampler × List Nat :=
  if s.armed then
    ({ s with armed := false },
     ((((toPairs s.mem).take (s.samples + 1)).reverse).map (emitChunk s.chGroups)).flatten)
  else (s, [])

/-! ## Controller (`src/analyzer.rs`, `poll_serial`) -/

/-- Bytes of the `GetId` reply `b"1ALS"`. -/
def idBytes : List Nat := [0x31, 0x41, 0x4c, 0x53]

/-- `usize::to_be_bytes` on the 32-bit target. -/
def beBytes4 (w : Nat) : List Nat :=
  [byteOf w 3, byteOf w 2, byteOf w 1, byteOf w 0]

/-- Bytes of the `GetMeta` reply. -/
def metaBytes : List Nat :=
  [0x01] ++ (String.toList "uLA: Micro Logic Analyzer").map Char.toNat ++
    [0x00, 0x20] ++ beBytes4 PROBES ++ [0x21] ++ beBytes4 SAMPLE_MEMORY ++
    [0x23] ++ beBytes4 SAMPLE_RATE ++ [0x24, 0x00, 0x00, 0x00, 0x02, 0x00]

/-- The mutable state of `LogicAnalyzer` relevant to command handling:
the parse buffer `scratch[0..needle]`, the trigger spec and the sampler. -/
structure AnalyzerState where
  buffer : List Nat
  trigger : Trigger
  sampler : Sampler
deriving Repr

/-- The command dispatch `match` of `poll_serial`, applied after
`parse_command` already consumed the frame. Returns the new state and
the bytes written to the serial port. `Reset` only clears the parser
cursor (`self.needle = 0`); trigger commands are guarded by `stage < 4`. -/
def applyCmd (st : AnalyzerState) : Cmd → AnalyzerState × List Nat
  | .reset => ({ st with buffer := [] }, [])
  | .arm => ({ st with sampler := st.sampler.start st.trigger }, [])
  | .setFlags f => ({ st with sampler := st.sampler.setFlags f }, [])
  | .setDivisor v => ({ st with sampler := st.sampler.setDivisor v }, [])
  | .setReadCount n => ({ st with sampler := st.sampler.setSampleMemory n }, [])
  | .setTriggerMask s m =>
    if s < 4 then ({ st with trigger := st.trigger.setMask s m }, []) else (st, [])
  | .setTriggerValues s p =>
    if s < 4 then ({ st with trigger := st.trigger.setPattern s p }, []) else (st, [])
  | .setTriggerDelay s d =>
    if s < 4 then ({ st with trigger := st.trigger.setDelay s d }, []) else (st, [])
  | .getId => (st, idBytes)
  | .getMeta => (st, metaBytes)

/-- One `poll_serial` invocation that reads `chunk` from the transport:
parse (one decode attempt) then dispatch the decoded command, if any. -/
def pollStep (st : AnalyzerState) (chunk : List Nat) : AnalyzerState × List Nat :=
  match pollParse st.buffer chunk with
  | (some cmd, buf1) => applyCmd { st with buffer := buf1 } cmd
  | (none, buf1) => ({ st with buffer := buf1 }, [])

/-! ## Hardware divider semantics (for claim C3) -/

/-- Modelled from the spec: the effective rate divider of the sampling
coprocessor. The spec states the effective divider is `divisor+1` with
`divisor = 0` meaning full rate; the RP2040 PIO clock divider (external
hardware, not part of this repository) runs at full rate for integer
part 1 and interprets an integer part of 0 as 65536. -/
def pioEffectiveDivider (intPart : Nat) : Nat := if intPart = 0 then 65536 else intPart

/-! ## Claim theorems -/

/-- Claim C6: if the first buffered byte is 0x00, 0x01, 0x02 or 0x04, the
parser decodes Reset, Arm, GetId or GetMeta respectively and consumes
exactly 1 byte, regardless of how many bytes follow or what they are. -/
theorem short_commands_decode_one_byte (rest : List Nat) :
    decode1 (0x00 :: rest) = some (some .reset, rest) ∧
    decode1 (0x01 :: rest) = some (some .arm, rest) ∧
    decode1 (0x02 :: rest) = some (some .getId, rest) ∧
    decode1 (0x04 :: rest) = some (some .getMeta, rest) :=
  ⟨rfl, rfl, rfl, rfl⟩

/-- Claim C5: with at least 5 buffered bytes and an unrecognized first
byte, the parser yields no Command and removes exactly one byte from the
front of the buffer. -/
theorem unknown_opcode_resync (b0 b1 b2 b3 b4 : Nat) (tail : List Nat)
    (h : b0 ∉ [0x00, 0x01, 0x02, 0x04, 0x80, 0x81, 0x82,
      0xc0, 0xc4, 0xc8, 0xcc, 0xc1, 0xc5, 0xc9, 0xcd, 0xc2, 0xc6, 0xca, 0xce]) :
    decode1 (b0 :: b1 :: b2 :: b3 :: b4 :: tail) = some (none, b1 :: b2 :: b3 :: b4 :: tail) := by
  simp only [List.mem_cons, List.mem_singleton, not_or] at h
  obtain ⟨h1, h2, h3, h4, h5, h6, h7, h8, h9, h10, h11, h12, h13, h14, h15, h16, h17, h18, h19⟩ := h
  simp [decode1, decodeLong, h1, h2, h3, h4, h5, h6, h7, h8, h9, h10,
    h11, h12, h13, h14, h15, h16, h17, h18, h19]

/-- Witness for C5 at the unrecognized opcode 0x03 with a full window. -/
theorem unknown_opcode_resync_witness :
    decode1 [0x03, 1, 2, 3, 4, 9] = some (none, [1, 2, 3, 4, 9]) :=
  unknown_opcode_resync 0x03 1 2 3 4 [9] (by decide)

/-- Claim C8: with all four masks zero, `compile` yields only the wrap
body: a single `in PINS, 16` capture instruction, the wrap looping from
right after it (address 1) back to it (address 0), and no stage
instructions. -/
theorem compile_all_masks_zero (p0 d0 p1 d1 p2 d2 p3 d3 : Nat) :
    Trigger.compile ⟨[⟨0, p0, d0⟩, ⟨0, p1, d1⟩, ⟨0, p2, d2⟩, ⟨0, p3, d3⟩]⟩ =
      { instrs := [.inPins 16], wrapTarget := 0, wrapSource := 1, origin := 0 } :=
  rfl

/-- Claim C3: for every stored `u16` divisor, `start` configures the
coprocessor clock divider so the effective rate divider is `divisor + 1`.
The firmware computes `self.divisor + 1` as a wrapping `u16` addition
(release build), so divisor 65535 passes integer part 0, which the
hardware interprets as 65536 = divisor + 1. -/
theorem start_divider (s : Sampler) (t : Trigger) (h : s.divisor < 65536) :
    pioEffectiveDivider ((s.start t).clockDiv) = s.divisor + 1 := by
  rcases eq_or_ne s.divisor 65535 with h2 | h2
  · simp [Sampler.start, pioEffectiveDivider, h2]
  · have hm : (s.divisor + 1) % 65536 = s.divisor + 1 := Nat.mod_eq_of_lt (by omega)
    simp [Sampler.start, pioEffectiveDivider, hm]

/-- A concrete sampler state used by witnesses: divisor at the top of the
`u16` range. -/
def samplerDiv65535 : Sampler :=
  { divisor := 65535
    samples := 0
    chGroups := (false, false)
    armed := false
    clockDiv := 1
    installed := Trigger.default.compile
    mem := [] }

/-- Witness for C3 at the wrap-around divisor 65535. -/
theorem start_divider_witness :
    pioEffectiveDivider ((samplerDiv65535.start Trigger.default).clockDiv) = 65535 + 1 :=
  start_divider samplerDiv65535 Trigger.default (by decide)

/-- Counterexample to claim C1 as stated: the parser performs one decode
attempt per poll, so feeding `[0x00, 0x00]` one byte per poll decodes two
Reset commands while feeding it in one call decodes only one. -/
theorem chunking_invariance_counterexample :
    ¬ (runPolls [] ([0x00, 0x00].map (fun b => [b])) = runPolls [] [[0x00, 0x00]]) := by
  decide

/-- Claim C7: with stage 0 mask `0xFFFFFFFF` (and the other stages
disabled), `compile` scans the mask as exactly 7 chunks of sizes
5,5,5,5,5,5,2, each emitted as a `set Y` (load comparison value),
`out X` (extract bits), `jmp X!=Y` (conditional jump back to the stage
label on mismatch) triple, all before the wrap body at address 22. -/
theorem compile_full_mask (p d p1 d1 p2 d2 p3 d3 : Nat) :
    Trigger.compile ⟨[⟨0xFFFFFFFF, p, d⟩, ⟨0, p1, d1⟩, ⟨0, p2, d2⟩, ⟨0, p3, d3⟩]⟩ =
      { instrs :=
          [PioInstr.movOsrPinsRev,
           .setY (p &&& 31), .outX 5, .jmp .xNotEqualY 0,
           .setY ((p >>> 5) &&& 31), .outX 5, .jmp .xNotEqualY 0,
           .setY ((p >>> 10) &&& 31), .outX 5, .jmp .xNotEqualY 0,
           .setY ((p >>> 15) &&& 31), .outX 5, .jmp .xNotEqualY 0,
           .setY ((p >>> 20) &&& 31), .outX 5, .jmp .xNotEqualY 0,
           .setY ((p >>> 25) &&& 31), .outX 5, .jmp .xNotEqualY 0,
           .setY ((p >>> 30) &&& 3), .outX 2, .jmp .xNotEqualY 0,
           .inPins 16]
        wrapTarget := 22
        wrapSource := 23
        origin := 0 } := by
  have h10 : ∀ q : Nat, q >>> 10 = q >>> 5 >>> 5 := fun q => Nat.shiftRight_add q 5 5
  have h15 : ∀ q : Nat, q >>> 15 = q >>> 10 >>> 5 := fun q => Nat.shiftRight_add q 10 5
  have h20 : ∀ q : Nat, q >>> 20 = q >>> 15 >>> 5 := fun q => Nat.shiftRight_add q 15 5
  have h25 : ∀ q : Nat, q >>> 25 = q >>> 20 >>> 5 := fun q => Nat.shiftRight_add q 20 5
  have h30 : ∀ q : Nat, q >>> 30 = q >>> 25 >>> 5 := fun q => Nat.shiftRight_add q 25 5
  simp only [h30, h25, h20, h15, h10]
  have h3 : scanLoop 64 0 0xFFFFFFFF p =
      [.setY (p &&& 31), .outX 5, .jmp .xNotEqualY 0,
       .setY ((p >>> 5) &&& 31), .outX 5, .jmp .xNotEqualY 0,
       .setY ((p >>> 5 >>> 5) &&& 31), .outX 5, .jmp .xNotEqualY 0,
       .setY ((p >>> 5 >>> 5 >>> 5) &&& 31), .outX 5, .jmp .xNotEqualY 0,
       .setY ((p >>> 5 >>> 5 >>> 5 >>> 5) &&& 31), .outX 5, .jmp .xNotEqualY 0,
       .setY ((p >>> 5 >>> 5 >>> 5 >>> 5 >>> 5) &&& 31), .outX 5, .jmp .xNotEqualY 0,
       .setY ((p >>> 5 >>> 5 >>> 5 >>> 5 >>> 5 >>> 5) &&& 3), .outX 2, .jmp .xNotEqualY 0] := rfl
  have h1 : compileStages 0 [⟨0xFFFFFFFF, p, d⟩, ⟨0, p1, d1⟩, ⟨0, p2, d2⟩, ⟨0, p3, d3⟩] =
      (PioInstr.movOsrPinsRev :: scanLoop 64 0 0xFFFFFFFF p) ++
        compileStages (0 + (PioInstr.movOsrPinsRev :: scanLoop 64 0 0xFFFFFFFF p).length)
          [⟨0, p1, d1⟩, ⟨0, p2, d2⟩, ⟨0, p3, d3⟩] := rfl
  have h2 : ∀ k, compileStages k [(⟨0, p1, d1⟩ : TriggerStage), ⟨0, p2, d2⟩, ⟨0, p3, d3⟩] = [] :=
    fun k => rfl
  unfold Trigger.compile
  simp only [h1, h2, h3, List.append_nil]
  rfl

/-- Helper for C9: the per-stage emission depends only on the masks and
patterns of the stages, never on the delays. -/
theorem compileStages_delay_irrelevant : ∀ (l1 l2 : List TriggerStage) (addr : Nat),
    l1.map TriggerStage.mask = l2.map TriggerStage.mask →
    l1.map TriggerStage.pattern = l2.map TriggerStage.pattern →
    compileStages addr l1 = compileStages addr l2 := by
  intro l1
  induction l1 with
  | nil =>
    intro l2 addr h1 _
    cases l2 with
    | nil => rfl
    | cons b t2 => simp at h1
  | cons a t ih =>
    intro l2 addr h1 h2
    cases l2 with
    | nil => simp at h1
    | cons b t2 =>
      simp only [List.map_cons, List.cons.injEq] at h1 h2
      obtain ⟨hm, hmt⟩ := h1
      obtain ⟨hp, hpt⟩ := h2
      simp only [compileStages, hm, hp]
      split_ifs with hmask
      · rw [ih t2 _ hmt hpt]
      · exact ih t2 addr hmt hpt

/-- Claim C9: the compiler never reads the delay fields — two TriggerSpecs
agreeing on every stage's mask and pattern compile to identical programs,
whatever their delays. -/
theorem compile_ignores_delay (t1 t2 : Trigger)
    (hm : t1.stages.map TriggerStage.mask = t2.stages.map TriggerStage.mask)
    (hp : t1.stages.map TriggerStage.pattern = t2.stages.map TriggerStage.pattern) :
    t1.compile = t2.compile := by
  unfold Trigger.compile
  rw [compileStages_delay_irrelevant t1.stages t2.stages 0 hm hp]

/-- Witness for C9: two concrete specs differing only in delays. -/
theorem compile_ignores_delay_witness :
    Trigger.compile ⟨[⟨5, 7, 11⟩, ⟨0, 1, 13⟩, ⟨2, 3, 17⟩, ⟨0, 0, 19⟩]⟩ =
      Trigger.compile ⟨[⟨5, 7, 0⟩, ⟨0, 1, 99⟩, ⟨2, 3, 123⟩, ⟨0, 0, 4242⟩]⟩ :=
  compile_ignores_delay _ _ (by decide) (by decide)

/-- Claim C4: every long-form frame decodes only once at least 5 bytes
are buffered (fewer give no progress), consumes exactly 5 bytes, yields
stage `(opcode - base)/4 ∈ {0,1,2,3}` for the trigger commands, and
SetDivisor, SetReadCount and SetTriggerDelay take exactly the low 16 bits
of the little-endian 32-bit operand in bytes 1..5. -/
theorem long_frames_consume_five (b0 b1 b2 b3 b4 : Nat) (tail : List Nat)
    (hb : b0 ∈ [0x80, 0x81, 0x82, 0xc0, 0xc4, 0xc8, 0xcc,
      0xc1, 0xc5, 0xc9, 0xcd, 0xc2, 0xc6, 0xca, 0xce])
    (h1 : b1 < 256) (h2 : b2 < 256) :
    (∀ pre : List Nat, pre.length < 4 → decode1 (b0 :: pre) = none) ∧
    (b0 = 0x80 → decode1 (b0 :: b1 :: b2 :: b3 :: b4 :: tail) =
      some (some (.setDivisor (le32 b1 b2 b3 b4 % 65536)), tail)) ∧
    (b0 = 0x81 → decode1 (b0 :: b1 :: b2 :: b3 :: b4 :: tail) =
      some (some (.setReadCount (le32 b1 b2 b3 b4 % 65536)), tail)) ∧
    (b0 = 0x82 → decode1 (b0 :: b1 :: b2 :: b3 :: b4 :: tail) =
      some (some (.setFlags b1), tail)) ∧
    (b0 = 0xc0 ∨ b0 = 0xc4 ∨ b0 = 0xc8 ∨ b0 = 0xcc →
      decode1 (b0 :: b1 :: b2 :: b3 :: b4 :: tail) =
        some (some (.setTriggerMask ((b0 - 0xc0) / 4) (le32 b1 b2 b3 b4)), tail) ∧
      (b0 - 0xc0) / 4 < 4) ∧
    (b0 = 0xc1 ∨ b0 = 0xc5 ∨ b0 = 0xc9 ∨ b0 = 0xcd →
      decode1 (b0 :: b1 :: b2 :: b3 :: b4 :: tail) =
        some (some (.setTriggerValues ((b0 - 0xc1) / 4) (le32 b1 b2 b3 b4)), tail) ∧
      (b0 - 0xc1) / 4 < 4) ∧
    (b0 = 0xc2 ∨ b0 = 0xc6 ∨ b0 = 0xca ∨ b0 = 0xce →
      decode1 (b0 :: b1 :: b2 :: b3 :: b4 :: tail) =
        some (some (.setTriggerDelay ((b0 - 0xc2) / 4) (le32 b1 b2 b3 b4 % 65536)), tail) ∧
      (b0 - 0xc2) / 4 < 4) := by
  have hlow : le32 b1 b2 b3 b4 % 65536 = le16 b1 b2 := by unfold le32 le16; omega
  fin_cases hb <;>
    refine ⟨fun pre hl => ?_, fun h => ?_, fun h => ?_, fun h => ?_,
      fun h => ?_, fun h => ?_, fun h => ?_⟩ <;>
    first
      | (rcases pre with _ | ⟨x1, _ | ⟨x2, _ | ⟨x3, _ | ⟨x4, r⟩⟩⟩⟩ <;>
          first
            | rfl
            | (simp only [List.length_cons] at hl; omega))
      | exact absurd h (by decide)
      | (refine ⟨?_, by decide⟩; simp [decode1, decodeLong, hlow])
      | simp [decode1, decodeLong, hlow]

/-- Witness for C4: a SetTriggerMask frame for stage 1, decoded with a
full window and rejected with a 3-byte window. -/
theorem long_frames_consume_five_witness :
    decode1 [0xc4, 1, 2, 3, 4, 9] =
      some (some (.setTriggerMask ((0xc4 - 0xc0) / 4) (le32 1 2 3 4)), [9]) ∧
    decode1 [0xc4, 1, 2] = none := by
  have h := long_frames_consume_five 0xc4 1 2 3 4 [9] (by decide) (by decide) (by decide)
  exact ⟨(h.2.2.2.2.1 (by decide)).1, h.1 [1, 2] (by decide)⟩

/-- Claim C10: handling a decoded Reset sets the parser cursor to 0
(discarding any bytes still buffered behind the Reset byte) and changes
nothing else — trigger stages, divisor, sample count, channel-group
flags and the acquisition engine state are untouched, and nothing is
written to the serial port. -/
theorem reset_clears_only_cursor (st : AnalyzerState) (chunk : List Nat)
    (hc : chunk ≠ []) (h0 : (st.buffer ++ chunk).head? = some 0x00) :
    pollStep st chunk = ({ st with buffer := [] }, []) := by
  have hne : chunk.isEmpty = false := by
    cases chunk with
    | nil => exact absurd rfl hc
    | cons a t => rfl
  obtain ⟨t, ht⟩ : ∃ t, st.buffer ++ chunk = 0x00 :: t := by
    cases hb : st.buffer ++ chunk with
    | nil =>
      rw [hb] at h0
      simp at h0
    | cons a t =>
      rw [hb] at h0
      simp only [List.head?_cons, Option.some.injEq] at h0
      exact ⟨t, by rw [h0]⟩
  simp [pollStep, pollParse, hne, ht, decode1, applyCmd]

/-- A concrete analyzer state with nontrivial trigger and sampler
configuration, used by the C10 witness. -/
def analyzerScenario : AnalyzerState :=
  { buffer := []
    trigger := ⟨[⟨1, 2, 3⟩, ⟨4, 5, 6⟩, ⟨0, 0, 0⟩, ⟨0, 0, 0⟩]⟩
    sampler := samplerDiv65535 }

/-- Witness for C10: a Reset byte followed by two stray bytes clears the
buffer and leaves all configuration intact. -/
theorem reset_clears_only_cursor_witness :
    pollStep analyzerScenario [0x00, 7, 7] = ({ analyzerScenario with buffer := [] }, []) :=
  reset_clears_only_cursor analyzerScenario [0x00, 7, 7] (by decide) (by decide)

/-! ## Streaming behaviour of the parser (claim C1) -/

/-- Both possible buffer remainders of a long-form decode: a recognized
opcode leaves `tail` (5 bytes consumed), an unknown one drops 1 byte. -/
theorem decodeLong_rest (b0 b1 b2 b3 b4 : Nat) (tail : List Nat) :
    (decodeLong b0 b1 b2 b3 b4 tail).2 = tail ∨
    (decodeLong b0 b1 b2 b3 b4 tail).2 = b1 :: b2 :: b3 :: b4 :: tail := by
  unfold decodeLong
  split_ifs <;> simp

/-- Every successful decode consumes at least one byte. -/
theorem decode1_consume {buf : List Nat} {c : Option Cmd} {rest : List Nat}
    (h : decode1 buf = some (c, rest)) : rest.length < buf.length := by
  match buf with
  | [] => simp [decode1] at h
  | b0 :: bs =>
    rcases bs with _ | ⟨b1, _ | ⟨b2, _ | ⟨b3, _ | ⟨b4, tail⟩⟩⟩⟩ <;>
      simp only [decode1] at h <;>
      split_ifs at h <;>
      first
        | (simp_all; done)
        | (injection h with h3
           have h5 : rest = tail ∨ rest = b1 :: b2 :: b3 :: b4 :: tail := by
             have h4 := congrArg Prod.snd h3
             rcases decodeLong_rest b0 b1 b2 b3 b4 tail with hr | hr <;> rw [hr] at h4 <;>
               simp only at h4
             · exact Or.inl h4.symm
             · exact Or.inr h4.symm
           rcases h5 with rfl | rfl <;> simp only [List.length_cons] <;> omega)

/-- A long-form decode does not look past its 5-byte window. -/
theorem decodeLong_append (b0 b1 b2 b3 b4 : Nat) (tail ext : List Nat) :
    decodeLong b0 b1 b2 b3 b4 (tail ++ ext) =
      ((decodeLong b0 b1 b2 b3 b4 tail).1, (decodeLong b0 b1 b2 b3 b4 tail).2 ++ ext) := by
  unfold decodeLong
  split_ifs <;> simp

/-- A decode that succeeds on `buf` behaves identically on `buf ++ ext`. -/
theorem decode1_append {buf : List Nat} {c : Option Cmd} {rest : List Nat}
    (h : decode1 buf = some (c, rest)) (ext : List Nat) :
    decode1 (buf ++ ext) = some (c, rest ++ ext) := by
  match buf with
  | [] => simp [decode1] at h
  | b0 :: bs =>
    rcases bs with _ | ⟨b1, _ | ⟨b2, _ | ⟨b3, _ | ⟨b4, tail⟩⟩⟩⟩ <;>
      simp only [List.cons_append, List.nil_append, decode1] at h ⊢ <;>
      split_ifs at h ⊢ <;>
      first
        | (replace h := h.symm; simp_all; done)
        | (rw [decodeLong_append]
           injection h with h3
           rw [h3])

/-- Iterated decoding to quiescence: repeat `decode1` on the buffer until
no further byte can be consumed, collecting all decoded commands. This is
the decode table of `parse_command` as a stream parser; the firmware's
`poll_serial` performs only one of these decode steps per poll. -/
def drainParse (buf : List Nat) : List Cmd × List Nat :=
  match h : decode1 buf with
  | none => ([], buf)
  | some (c, rest) =>
    let r := drainParse rest
    (c.toList ++ r.1, r.2)
termination_by buf.length
decreasing_by exact decode1_consume h

/-- Unfolding lemma for `drainParse` on a stuck buffer. -/
theorem drainParse_none {buf : List Nat} (h : decode1 buf = none) :
    drainParse buf = ([], buf) := by
  conv_lhs => rw [drainParse]
  split
  · rfl
  · rename_i c2 rest2 heq
    rw [h] at heq
    cases heq

/-- Unfolding lemma for `drainParse` on a decodable buffer. -/
theorem drainParse_some {buf : List Nat} {c : Option Cmd} {rest : List Nat}
    (h : decode1 buf = some (c, rest)) :
    drainParse buf = (c.toList ++ (drainParse rest).1, (drainParse rest).2) := by
  conv_lhs => rw [drainParse]
  split
  · rename_i heq
    rw [h] at heq
    cases heq
  · rename_i c2 rest2 heq
    rw [h] at heq
    injection heq with heq2
    injection heq2 with heq3 heq4
    subst heq3
    subst heq4
    rfl

/-- Draining `buf ++ ext` first drains `buf`, then drains the leftover
prefix together with `ext` (length-bounded induction). -/
theorem drainParse_append_aux : ∀ (n : Nat) (buf ext : List Nat), buf.length ≤ n →
    drainParse (buf ++ ext) =
      ((drainParse buf).1 ++ (drainParse ((drainParse buf).2 ++ ext)).1,
       (drainParse ((drainParse buf).2 ++ ext)).2) := by
  intro n
  induction n with
  | zero =>
    intro buf ext h
    have hb : buf = [] := List.length_eq_zero.mp (Nat.le_zero.mp h)
    subst hb
    simp [drainParse_none (show decode1 [] = none from rfl)]
  | succ n ih =>
    intro buf ext h
    cases hd : decode1 buf with
    | none =>
      simp [drainParse_none hd]
    | some p =>
      obtain ⟨c, rest⟩ := p
      have hlt := decode1_consume hd
      have hd2 := decode1_append hd ext
      rw [drainParse_some hd2, drainParse_some hd]
      have hih := ih rest ext (by omega)
      simp [hih, List.append_assoc]

/-- `drainParse` distributes over appending further input. -/
theorem drainParse_append (buf ext : List Nat) :
    drainParse (buf ++ ext) =
      ((drainParse buf).1 ++ (drainParse ((drainParse buf).2 ++ ext)).1,
       (drainParse ((drainParse buf).2 ++ ext)).2) :=
  drainParse_append_aux buf.length buf ext le_rfl

/-- The buffer left by `drainParse` admits no further decode. -/
theorem drainParse_stuck_aux : ∀ (n : Nat) (buf : List Nat), buf.length ≤ n →
    decode1 (drainParse buf).2 = none := by
  intro n
  induction n with
  | zero =>
    intro buf h
    have hb : buf = [] := List.length_eq_zero.mp (Nat.le_zero.mp h)
    subst hb
    rw [drainParse_none (show decode1 [] = none from rfl)]
    rfl
  | succ n ih =>
    intro buf h
    cases hd : decode1 buf with
    | none =>
      rw [drainParse_none hd]
      exact hd
    | some p =>
      obtain ⟨c, rest⟩ := p
      have hlt := decode1_consume hd
      rw [drainParse_some hd]
      exact ih rest (by omega)

/-- The buffer left by `drainParse` admits no further decode. -/
theorem drainParse_stuck (buf : List Nat) : decode1 (drainParse buf).2 = none :=
  drainParse_stuck_aux buf.length buf le_rfl

/-- Feed a sequence of per-poll chunks through the parser, draining the
decode table to quiescence after each poll. -/
def runDrained : List Nat → List (List Nat) → List Cmd
  | _, [] => []
  | buf, c :: cs => (drainParse (buf ++ c)).1 ++ runDrained (drainParse (buf ++ c)).2 cs

/-- Chunked drained runs decode exactly the commands of the concatenated
input. -/
theorem runDrained_flatten : ∀ (chunks : List (List Nat)) (buf : List Nat),
    decode1 buf = none →
    runDrained buf chunks = (drainParse (buf ++ chunks.flatten)).1 := by
  intro chunks
  induction chunks with
  | nil =>
    intro buf h
    simp [runDrained, drainParse_none h]
  | cons c cs ih =>
    intro buf h
    have happ := drainParse_append (buf ++ c) cs.flatten
    simp only [runDrained, List.flatten_cons, ← List.append_assoc]
    rw [happ]
    simp [ih _ (drainParse_stuck (buf ++ c))]

/-- Flattening singleton chunks recovers the byte sequence. -/
theorem flatten_map_singleton : ∀ l : List Nat, (l.map fun b => [b]).flatten = l := by
  intro l
  induction l with
  | nil => rfl
  | cons a t ih => simp [ih]

/-- Amended claim C1: when each poll drains the decode table to
quiescence, the parser is chunking-invariant — feeding a byte sequence
one byte per poll yields the same ordered command list as feeding it all
in one poll. (As literally stated the claim fails, because `poll_serial`
performs a single decode attempt per poll; see the counterexample.) -/
theorem drained_chunking_invariance (bytes : List Nat) :
    runDrained [] (bytes.map fun b => [b]) = runDrained [] [bytes] := by
  rw [runDrained_flatten _ [] rfl, runDrained_flatten _ [] rfl]
  simp [flatten_map_singleton]

/-! ## Drain output shape (claim C2) -/

/-- Bytes per chunk for a channel-group configuration: 8 when both groups
are enabled, 4 for exactly one, 0 for none. -/
def groupWidth (g : Bool × Bool) : Nat :=
  match g with
  | (false, false) => 0
  | (true, true) => 8
  | _ => 4

/-- Each emitted chunk has exactly `groupWidth` bytes. -/
theorem emitChunk_length (g : Bool × Bool) (c : Nat × Nat) :
    (emitChunk g c).length = groupWidth g := by
  rcases g with ⟨_ | _, _ | _⟩ <;> rfl

/-- `chunks(2)` produces half as many pairs as there are words. -/
theorem toPairs_length : ∀ l : List Nat, (toPairs l).length = l.length / 2
  | [] => rfl
  | [_] => by simp [toPairs]
  | a :: b :: rest => by
    simp only [toPairs, List.length_cons, toPairs_length rest]
    omega

/-- `getD` inside the taken prefix reads the original list. -/
theorem getD_take {α : Type} : ∀ (l : List α) (k i : Nat) (d : α), i < k →
    (l.take k).getD i d = l.getD i d
  | [], _, _, _, _ => by simp
  | a :: t, 0, i, d, h => by omega
  | a :: t, k + 1, 0, d, h => by simp
  | a :: t, k + 1, i + 1, d, h => by
    simp only [List.take_succ_cons, List.getD_cons_succ]
    exact getD_take t k i d (by omega)

/-- A reversed list enumerated by indices counted from its back. -/
theorem reverse_eq_map_range {α : Type} (d : α) : ∀ l : List α,
    l.reverse = (List.range l.length).map (fun i => l.getD (l.length - 1 - i) d) := by
  intro l
  induction l with
  | nil => rfl
  | cons a t ih =>
    simp only [List.reverse_cons, List.length_cons, Nat.add_sub_cancel]
    rw [List.range_succ, List.map_append, ih]
    congr 1
    · apply List.map_congr_left
      intro i hi
      rw [List.mem_range] at hi
      have h1 : t.length - i = (t.length - 1 - i) + 1 := by omega
      rw [h1, List.getD_cons_succ]
    · simp

/-- Flattening constant-width segments multiplies the count by the width. -/
theorem flatten_const_length {α : Type} (f : α → List Nat) (w : Nat)
    (hf : ∀ x, (f x).length = w) : ∀ l : List α, ((l.map f).flatten).length = l.length * w := by
  intro l
  induction l with
  | nil => simp
  | cons a t ih =>
    simp only [List.map_cons, List.flatten_cons, List.length_append, List.length_cons,
      hf, ih, Nat.succ_mul]
    omega

/-- Total drain output length: number of emitted chunks (capped by the
buffer's pair count) times the per-chunk width. -/
theorem drain_length (s : Sampler) (h : s.armed = true) :
    (s.drain).2.length = min (s.samples + 1) (toPairs s.mem).length * groupWidth s.chGroups := by
  simp only [Sampler.drain, h, if_true]
  rw [flatten_const_length (emitChunk s.chGroups) (groupWidth s.chGroups) (emitChunk_length _)]
  rw [List.length_reverse, List.length_take]

/-- Amended claim C2: when `drain` runs on an Armed engine whose buffer
holds `SAMPLE_MEMORY/4 = 50000` words (25000 two-word chunks), it
returns to StandBy and emits exactly `min(sampleCount+1, 25000)` chunks
in reverse capture order — the i-th emitted chunk is buffer chunk
`n-1-i` — each contributing `groupWidth` ∈ {8, 4, 0} bytes according to
the enabled channel groups. (The claim as stated, with exactly
`sampleCount+1` chunks for every sampleCount, fails once
`sampleCount+1` exceeds the buffer's 25000 chunks; see the
counterexample.) -/
theorem drain_armed_spec (s : Sampler) (h : s.armed = true) (hm : s.mem.length = 50000) :
    ((s.drain).1.armed = false) ∧
    ((s.drain).2 = ((List.range (min (s.samples + 1) 25000)).map
      (fun i => emitChunk s.chGroups
        ((toPairs s.mem).getD (min (s.samples + 1) 25000 - 1 - i) (0, 0)))).flatten) ∧
    ((s.drain).2.length = min (s.samples + 1) 25000 * groupWidth s.chGroups) := by
  have hP : (toPairs s.mem).length = 25000 := by rw [toPairs_length, hm]
  have hL : ((toPairs s.mem).take (s.samples + 1)).length = min (s.samples + 1) 25000 := by
    rw [List.length_take, hP]
  refine ⟨by simp [Sampler.drain, h], ?_, ?_⟩
  · simp only [Sampler.drain, h, if_true]
    rw [reverse_eq_map_range (0, 0), List.map_map, hL]
    congr 1
    apply List.map_congr_left
    intro i hi
    rw [List.mem_range] at hi
    simp only [Function.comp_apply]
    congr 1
    exact getD_take _ _ _ _ (by omega)
  · rw [drain_length s h, hP]

/-- An armed sampler with sampleCount 0 and a full-size buffer, for the
C2 witness. -/
def samplerSmall : Sampler :=
  { divisor := 0
    samples := 0
    chGroups := (true, true)
    armed := true
    clockDiv := 1
    installed := Trigger.default.compile
    mem := List.replicate 50000 0 }

/-- Witness for the amended C2 at sampleCount 0 with both groups on. -/
theorem drain_armed_spec_witness :
    ((samplerSmall.drain).1.armed = false) ∧
    ((samplerSmall.drain).2 = ((List.range (min (samplerSmall.samples + 1) 25000)).map
      (fun i => emitChunk samplerSmall.chGroups
        ((toPairs samplerSmall.mem).getD (min (samplerSmall.samples + 1) 25000 - 1 - i) (0, 0)))).flatten) ∧
    ((samplerSmall.drain).2.length =
      min (samplerSmall.samples + 1) 25000 * groupWidth samplerSmall.chGroups) :=
  drain_armed_spec samplerSmall rfl
    (by rw [show samplerSmall.mem = List.replicate 50000 0 from rfl, List.length_replicate])

/-- An armed sampler whose sampleCount exceeds the buffer's chunk
capacity, refuting C2 as stated. -/
def samplerFull : Sampler :=
  { divisor := 0
    samples := 25000
    chGroups := (true, true)
    armed := true
    clockDiv := 1
    installed := Trigger.default.compile
    mem := List.replicate 50000 0 }

/-- Counterexample to claim C2 as stated: with sampleCount = 25000 (a
value `SetReadCount` accepts) and both groups enabled, `drain` emits
25000 × 8 = 200000 bytes, not (sampleCount+1) × 8 = 200008 — the
`chunks(2).take(samples+1)` iterator is capped by the buffer's 25000
chunks. -/
theorem drain_chunk_count_counterexample :
    ¬ ((samplerFull.drain).2.length =
        (samplerFull.samples + 1) * groupWidth samplerFull.chGroups) := by
  have hm : samplerFull.mem.length = 50000 := by
    rw [show samplerFull.mem = List.replicate 50000 0 from rfl, List.length_replicate]
  rw [drain_length samplerFull rfl, toPairs_length, hm]
  rw [show samplerFull.samples = 25000 from rfl, show samplerFull.chGroups = (true, true) from rfl]
  norm_num [groupWidth]
